import Mathlib

/-!
Shallow embedding of the core of the `peerz` peer-to-peer library
(routing tree, node liveness machine, transport framer, lookup state
machines, engine event loop), translated from the Python 2 sources in
`peerz/routing.py`, `peerz/transport.py`, `peerz/messaging/base.py`,
`peerz/messaging/discovery.py`, `peerz/messaging/hashtable.py` and
`peerz/engine.py`, together with theorems settling the specification
claims about those components.

Modelling conventions:
* byte strings are `List Nat` (each entry one byte value);
* 256-bit identifiers are `Nat` (the sources convert byte strings to
  arbitrary-precision integers via `hexlify` before any arithmetic, so a
  big-endian fold to `Nat` is exact);
* Python `OrderedDict` is an association list in insertion order
  (`__setitem__` on an existing key updates in place, otherwise appends);
* wall-clock reads (`time.time()`, `time_since_epoch()`) become explicit
  `now` parameters; the `times`/`last_change` per-state stopwatch kept by
  the `_update` callbacks is pure bookkeeping that no claim mentions and
  is not carried;
* Python exceptions (`struct.error`, `AttributeError`, assertion and
  `MachineError` failures) are explicit error results; where the engine
  catches them mid-handler, the functions return the state accumulated up
  to the raise point, matching the mutations that survive the `except`;
* the state machines built with the `transitions` library are compiled to
  functions following that library's semantics: for a trigger, the
  declared transitions are tried in declaration order, a transition fires iff its
  source matches and all its conditions hold (conditions are evaluated
  before any callback), the state is changed and then the `after`
  callbacks run; a trigger with no matching transition raises
  `MachineError`; a `'*'` source matches every state, including the
  destination.
-/

namespace Peerz

/-- Bin capacity (`K` in `routing.py`). -/
def K : Nat := 8

/-- Extra split depth allowed for subtrees not holding the local id
(`B` in `routing.py`). -/
def B : Nat := 5

/-- Identifier width in bits (`KEY_BITS` in `routing.py`). -/
def KEY_BITS : Nat := 256

/-- Maximum content bytes per fragment (`Payload.MAX_FRAGMENT`). -/
def MAX_FRAGMENT : Nat := 1100

/-- Bounded lookup concurrency (`max_concurrency`/`max_concurrent`
default, the spec's alpha). -/
def ALPHA : Nat := 3

/-- Big-endian byte-string to integer, the semantics of
`long(binascii.hexlify(s), 16)` used throughout `routing.py`. -/
def bytesToNat (bs : List Nat) : Nat :=
  bs.foldl (fun a b => a * 256 + b) 0

/-- Integer to a big-endian byte string of exactly `k` bytes (used where
the sources emit a raw 32-byte identifier with `%s` / `struct` `32s`). -/
def natToBytes : Nat → Nat → List Nat
  | 0, _ => []
  | k + 1, v => natToBytes k (v / 256) ++ [v % 256]

/-- Decimal ASCII digits of a number, the semantics of Python `'%i'`
formatting of a port number. -/
def natToAscii (n : Nat) : List Nat :=
  if h : n < 10 then [48 + n]
  else natToAscii (n / 10) ++ [48 + n % 10]
  decreasing_by exact Nat.div_lt_self (by omega) (by omega)

/-- ASCII decimal parse, the semantics of Python `int()` on the digit
strings produced by the node serialisation (any non-digit byte raises
`ValueError`, reported here as `none`). -/
def parseAsciiNat (bs : List Nat) : Option Nat :=
  if bs = [] then none
  else bs.foldl (fun acc b =>
    match acc with
    | none => none
    | some v => if 48 ≤ b ∧ b ≤ 57 then some (v * 10 + (b - 48)) else none)
    (some 0)

/-- Association-list lookup (Python `dict.get`). -/
def alookup {α β : Type} [DecidableEq α] (l : List (α × β)) (k : α) : Option β :=
  (l.find? (fun p => decide (p.1 = k))).map (fun p => p.2)

/-- `OrderedDict.__setitem__`: update in place when the key exists,
otherwise append as most recent. -/
def aset {α β : Type} [DecidableEq α] (l : List (α × β)) (k : α) (v : β) :
    List (α × β) :=
  if (l.find? (fun p => decide (p.1 = k))).isSome then
    l.map (fun p => if p.1 = k then (k, v) else p)
  else l ++ [(k, v)]

/-- `dict.pop(k, None)`: the removed value (if any) and the remaining
entries. -/
def apop {α β : Type} [DecidableEq α] (l : List (α × β)) (k : α) :
    Option β × List (α × β) :=
  (alookup l k, l.filter (fun p => decide (p.1 ≠ k)))

/-- XOR distance between identifiers (`routing.distance`): the byte
strings are read as big-endian integers and xored. -/
def distance (a b : Nat) : Nat := a ^^^ b

/-- `routing.bit_number`: bit `i` of an identifier laid out in a
`KEY_BITS`-bit window, MSB first; 0 for positions past the window. -/
def bitNumber (nodeId : Nat) (bit : Nat) : Nat :=
  if KEY_BITS ≤ bit then 0
  else (nodeId >>> (KEY_BITS - 1 - bit)) &&& 1

/-- Liveness states of `routing.Node`. -/
inductive NodeState where
  | discovered
  | verified
  | failed
deriving DecidableEq, Repr

/-- `routing.Node`: one known peer with its endpoint, liveness machine
state and counters.  `hostname`, pickling support and the per-state
stopwatch (`times`, `last_change`, `start`) are diagnostics no claim
touches and are not carried. -/
structure Node where
  node_id : Nat
  address : List Nat
  port : Nat
  secret_key : Option Nat
  discovered_at : Nat
  first_contact : Option Nat
  last_contact : Option Nat
  last_failure : Option Nat
  state : NodeState
  failures : Nat
  queries_in : Nat
  queries_out : Nat
  responses_in : Nat
  responses_out : Nat
  rtt : List Nat
deriving DecidableEq, Repr

/-- `Node.__init__` followed by `reset()`: fresh record in state
`discovered` with zeroed counters. -/
def Node.create (address : List Nat) (port : Nat) (nodeId : Nat)
    (secret : Option Nat) (now : Nat) : Node :=
  { node_id := nodeId
    address := address
    port := port
    secret_key := secret
    discovered_at := now
    first_contact := none
    last_contact := none
    last_failure := none
    state := .discovered
    failures := 0
    queries_in := 0
    queries_out := 0
    responses_in := 0
    responses_out := 0
    rtt := [] }

/-- `Node.has_failed` condition of the liveness machine. -/
def Node.has_failed (n : Node) : Prop := 3 ≤ n.failures

instance (n : Node) : Decidable n.has_failed := by
  unfold Node.has_failed; infer_instance

/-- The `timeout` trigger of the `Node` liveness machine.  Transition
order from `Node.transitions`: the guarded `discovered|verified →
failed` transition (condition `has_failed`, i.e. `failures >= 3` at call
time) is tried first; otherwise the state self-transitions and the
`_timeout` callback increments the failure counter; from `failed` the
self-transition has no `after` callback. -/
def Node.timeout (now : Nat) (n : Node) : Node :=
  match n.state with
  | .failed => n
  | _ =>
    if 3 ≤ n.failures then
      { n with state := .failed, last_failure := some now }
    else
      { n with failures := n.failures + 1 }

/-- The `response_in` trigger: `discovered|verified → verified`, with
`_response_in` stamping contact times, zeroing the failure counter and
counting the response.  There is no transition from `failed`, so the
`transitions` machine raises `MachineError` there (`none`).  Note Python
`if not self.first_contact` treats a zero timestamp as unset. -/
def Node.response_in (now : Nat) (n : Node) : Option Node :=
  match n.state with
  | .failed => none
  | _ =>
    some { n with
      state := .verified
      first_contact :=
        if n.first_contact.getD 0 = 0 then some now else n.first_contact
      last_contact := some now
      failures := 0
      responses_in := n.responses_in + 1 }

/-- `Node.query_in`: stamp contact times and count the inbound query (no
machine transition). -/
def Node.query_in (now : Nat) (n : Node) : Node :=
  { n with
    first_contact :=
      if n.first_contact.getD 0 = 0 then some now else n.first_contact
    last_contact := some now
    queries_in := n.queries_in + 1 }

/-- `Node.query_out`. -/
def Node.query_out (n : Node) : Node :=
  { n with queries_out := n.queries_out + 1 }

/-- `Node.response_out`. -/
def Node.response_out (n : Node) : Node :=
  { n with failures := 0, responses_out := n.responses_out + 1 }

/-- `Node.add_rtt`: keep the ten most recent samples, most recent first;
a falsy (zero) sample is ignored. -/
def Node.add_rtt (sample : Nat) (n : Node) : Node :=
  if sample ≠ 0 then { n with rtt := (sample :: n.rtt).take 10 } else n

/-- `routing.RoutingBin`: insertion-ordered `OrderedDict` of active
nodes keyed by id, plus the replacement cache. -/
structure RoutingBin where
  maxsize : Nat
  nodes : List (Nat × Node)
  replacements : List (Nat × Node)
deriving DecidableEq, Repr

/-- `RoutingBin(maxsize)`. -/
def RoutingBin.mkEmpty (maxsize : Nat) : RoutingBin :=
  { maxsize := maxsize, nodes := [], replacements := [] }

/-- `RoutingBin.get_all` (`nodes.values()`). -/
def RoutingBin.get_all (b : RoutingBin) : List Node :=
  b.nodes.map (fun p => p.2)

/-- `RoutingBin.get_by_id`. -/
def RoutingBin.get_by_id (b : RoutingBin) (nodeId : Nat) : Option Node :=
  alookup b.nodes nodeId

/-- `RoutingBin.get_by_address`: first node matching the endpoint. -/
def RoutingBin.get_by_address (b : RoutingBin) (address : List Nat)
    (port : Nat) : Option Node :=
  (b.nodes.find? (fun p =>
    decide (p.2.address = address ∧ p.2.port = port))).map (fun p => p.2)

/-- `RoutingBin.remaining` as the Python int `maxsize - len(self)`
(may be negative, and truthiness tests compare it against zero). -/
def RoutingBin.remaining (b : RoutingBin) : Int :=
  (b.maxsize : Int) - b.nodes.length

/-- `RoutingBin.push`.  When the active list has room the node is stored
there (`OrderedDict` set).  Otherwise it goes to the replacement cache:
any stale entry under the same key is removed, the node is appended as
most recent, and then the trim step runs — in the Python 2 source the
guard `if self.replacements > self.maxsize` compares an `OrderedDict`
against an `int`, which is always true (numbers sort before other
types), so `popitem()` (which pops the most-recent entry) always fires
and immediately discards the entry just appended. -/
def RoutingBin.push (b : RoutingBin) (n : Node) : RoutingBin :=
  if b.remaining ≠ 0 then
    { b with nodes := aset b.nodes n.node_id n }
  else
    let reps := (b.replacements.filter (fun p => decide (p.1 ≠ n.node_id)))
      ++ [(n.node_id, n)]
    { b with replacements := reps.dropLast }

/-- Comparison by XOR distance to a target, the sort key used by
`distance_sort` and `RoutingBin.get_closest_to`. -/
def distLe (target : Nat) (a b : Node) : Prop :=
  distance a.node_id target ≤ distance b.node_id target

/-- Strict version of `distLe`. -/
def distLt (target : Nat) (a b : Node) : Prop :=
  distance a.node_id target < distance b.node_id target

instance (target : Nat) : DecidableRel (distLe target) := fun a b => by
  unfold distLe; infer_instance

instance (target : Nat) : DecidableRel (distLt target) := fun a b => by
  unfold distLt; infer_instance

instance (target : Nat) : IsTotal Node (distLe target) :=
  ⟨fun a b => Nat.le_total _ _⟩

instance (target : Nat) : IsTrans Node (distLe target) :=
  ⟨fun _ _ _ => Nat.le_trans⟩

instance (target : Nat) : IsAntisymm Node (distLt target) :=
  ⟨fun _ _ h1 h2 => (Nat.lt_asymm h1 h2).elim⟩

/-- `routing.distance_sort`/Python `sorted` by XOR distance to the
target.  Distinct ids have distinct distances, so any comparison sort
agrees with the stable `sorted`; insertion sort is used here. -/
def sortByDistance (target : Nat) (l : List Node) : List Node :=
  l.insertionSort (distLe target)

/-- `RoutingBin.get_closest_to`. -/
def RoutingBin.get_closest_to (b : RoutingBin) (target : Nat)
    (maxNodes : Nat) : List Node :=
  (sortByDistance target b.get_all).take maxNodes

/-- Tree-wide constants carried by every `RoutingZone` in the source
(`node_id` of the local node, `bdepth`, `binsize`); they are identical
across the tree so they are threaded as one parameter record here. -/
structure TreeParams where
  localId : Nat
  bdepth : Nat
  binsize : Nat
deriving DecidableEq, Repr

/-- `routing.RoutingZone`: a leaf holds one routing bin, an internal
zone exactly two children indexed by bit value (the source's
`children[0] is None` leaf test and the `parent` back-pointer become the
constructor shape; `prefix` is a diagnostic string). -/
inductive RoutingZone where
  | leaf (depth : Nat) (bin : RoutingBin)
  | node (depth : Nat) (c0 c1 : RoutingZone)
deriving DecidableEq, Repr

/-- Depth field of a zone. -/
def RoutingZone.zdepth : RoutingZone → Nat
  | .leaf d _ => d
  | .node d _ _ => d

/-- `RoutingZone.get_all_nodes`. -/
def RoutingZone.allNodes : RoutingZone → List Node
  | .leaf _ bin => bin.get_all
  | .node _ c0 c1 => c0.allNodes ++ c1.allNodes

/-- `RoutingZone.get_node_by_id`. -/
def RoutingZone.getNodeById : RoutingZone → Nat → Option Node
  | .leaf _ bin, nodeId => bin.get_by_id nodeId
  | .node _ c0 c1, nodeId =>
    match c0.getNodeById nodeId with
    | some n => some n
    | none => c1.getNodeById nodeId

/-- `RoutingZone.get_node_by_addr`. -/
def RoutingZone.getNodeByAddr : RoutingZone → List Nat → Nat → Option Node
  | .leaf _ bin, address, port => bin.get_by_address address port
  | .node _ c0 c1, address, port =>
    match c0.getNodeByAddr address port with
    | some n => some n
    | none => c1.getNodeByAddr address port

/-- `RoutingZone.closest_to`: at a leaf, the bin sort; at an internal
zone, descend into the child on the target's side of bit `depth`, then
probe the sibling (`children[not index]`) for the remainder when short. -/
def RoutingZone.closestTo : RoutingZone → Nat → Nat → List Node
  | .leaf _ bin, target, maxNodes => bin.get_closest_to target maxNodes
  | .node d c0 c1, target, maxNodes =>
    if bitNumber target d = 0 then
      let nodes := c0.closestTo target maxNodes
      if nodes.length < maxNodes then
        nodes ++ c1.closestTo target (maxNodes - nodes.length)
      else nodes
    else
      let nodes := c1.closestTo target maxNodes
      if nodes.length < maxNodes then
        nodes ++ c0.closestTo target (maxNodes - nodes.length)
      else nodes

/-- `RoutingZone._can_split`: leaf, depth below `KEY_BITS`, bin full
(`remaining()` falsy), and local id present or depth below `bdepth`. -/
def RoutingZone.canSplit (P : TreeParams) : RoutingZone → Bool
  | .leaf d bin =>
    decide (d < KEY_BITS) && decide (bin.remaining = 0) &&
      (bin.nodes.any (fun p => decide (p.1 = P.localId)) ||
       decide (d < P.bdepth))
  | .node _ _ _ => false

/-- The redistribution step of `RoutingZone._split`, parameterised by
the child-insertion function (`children[index].add`): build the two
child leaves at depth `d + 1` with fresh bins of the same capacity,
then re-add every record of the old bin into the child on its side of
bit `d`; the old bin (including its replacement cache) is dropped
(`self.routing_bin = None`).  A non-leaf argument would trip the
source's `assert self.is_leaf()` and is returned unchanged. -/
def RoutingZone.splitWith (addf : RoutingZone → Node → RoutingZone) :
    RoutingZone → RoutingZone
  | .leaf d bin =>
    let start0 := RoutingZone.leaf (d + 1) (RoutingBin.mkEmpty bin.maxsize)
    let start1 := RoutingZone.leaf (d + 1) (RoutingBin.mkEmpty bin.maxsize)
    let cs := bin.get_all.foldl
      (fun (cs : RoutingZone × RoutingZone) x =>
        if bitNumber x.node_id d = 0 then (addf cs.1 x, cs.2)
        else (cs.1, addf cs.2 x))
      (start0, start1)
    .node d cs.1 cs.2
  | z => z

/-- `RoutingZone.add`: split first when eligible, then push at a leaf or
route by `bit_number(node_id, depth)` at an internal zone.  The mutual
recursion through `_split` is bounded by an explicit fuel argument; the
operations are only ever invoked with fuel exceeding the maximal tree
depth (`KEY_BITS + 1`), where exhaustion is unreachable because every
split requires `depth < KEY_BITS`. -/
def RoutingZone.addFuel (P : TreeParams) : Nat → RoutingZone → Node → RoutingZone
  | 0, z, _ => z
  | fuel + 1, z, n =>
    let z' :=
      if RoutingZone.canSplit P z then
        RoutingZone.splitWith (fun zz nn => RoutingZone.addFuel P fuel zz nn) z
      else z
    match z' with
    | .leaf d bin => .leaf d (bin.push n)
    | .node d c0 c1 =>
      if bitNumber n.node_id d = 0 then
        .node d (RoutingZone.addFuel P fuel c0 n) c1
      else
        .node d c0 (RoutingZone.addFuel P fuel c1 n)

/-- `RoutingZone._split` at a given inner fuel. -/
def RoutingZone.splitFuel (P : TreeParams) (fuel : Nat) (z : RoutingZone) :
    RoutingZone :=
  RoutingZone.splitWith (fun zz nn => RoutingZone.addFuel P fuel zz nn) z

/-- Top-level `add` with fuel covering any reachable depth. -/
def RoutingZone.add (P : TreeParams) (z : RoutingZone) (n : Node) : RoutingZone :=
  RoutingZone.addFuel P (KEY_BITS + 1) z n

/-- In-place mutation of the `Node` object found by id: the Python
sources look a node up (`get_node_by_id`) and mutate the shared object,
which is aliased by the leaf bin (and possibly a replacement cache)
holding it.  With ids unique across the tree this equals updating every
entry stored under that id. -/
def RoutingBin.updateById (b : RoutingBin) (nodeId : Nat) (f : Node → Node) :
    RoutingBin :=
  { b with
    nodes := b.nodes.map (fun p => if p.1 = nodeId then (p.1, f p.2) else p)
    replacements :=
      b.replacements.map (fun p => if p.1 = nodeId then (p.1, f p.2) else p) }

/-- Tree-wide version of `RoutingBin.updateById`. -/
def RoutingZone.updateById : RoutingZone → Nat → (Node → Node) → RoutingZone
  | .leaf d bin, nodeId, f => .leaf d (bin.updateById nodeId f)
  | .node d c0 c1, nodeId, f =>
    .node d (c0.updateById nodeId f) (c1.updateById nodeId f)

/-- Well-formedness of one routing bin: the association list is keyed by
the stored node's id, keys are distinct, and ids fit the identifier
width.  These hold for every bin the library builds. -/
def BinWf (bin : RoutingBin) : Prop :=
  bin.nodes.Pairwise (fun p q => p.1 ≠ q.1) ∧
    ∀ p ∈ bin.nodes, p.1 = p.2.node_id ∧ p.2.node_id < 2 ^ KEY_BITS

instance (bin : RoutingBin) : Decidable (BinWf bin) := by
  unfold BinWf; infer_instance

/-- Well-formedness of a routing (sub)tree rooted at depth
`z.zdepth`: bins are well formed, children sit one level deeper, every
record below an internal zone at depth `d` lies in the child matching
bit `d` of its id, and all records below a zone agree on the bits above
its depth (the path prefix).  Every tree the library builds satisfies
this. -/
def ZoneWf : RoutingZone → Prop
  | .leaf _ bin => BinWf bin
  | .node d c0 c1 =>
    ZoneWf c0 ∧ ZoneWf c1 ∧ c0.zdepth = d + 1 ∧ c1.zdepth = d + 1 ∧
      (∀ x ∈ c0.allNodes, bitNumber x.node_id d = 0) ∧
      (∀ x ∈ c1.allNodes, bitNumber x.node_id d = 1) ∧
      (∀ x ∈ c0.allNodes ++ c1.allNodes, ∀ y ∈ c0.allNodes ++ c1.allNodes,
        ∀ i, i < d → bitNumber x.node_id i = bitNumber y.node_id i)

def zoneWfDecidable : (z : RoutingZone) → Decidable (ZoneWf z)
  | .leaf d bin => by unfold ZoneWf; infer_instance
  | .node d c0 c1 => by
    unfold ZoneWf
    have i0 := zoneWfDecidable c0
    have i1 := zoneWfDecidable c1
    infer_instance

instance (z : RoutingZone) : Decidable (ZoneWf z) := zoneWfDecidable z

/-- Python-level exceptions surfaced by the transport parsing layer and
caught by `Engine.recv_external`. -/
inductive PyErr where
  | structError
  | attributeError
deriving DecidableEq, Repr

/-- Parsed inner payload header (`transport.Payload.unpack` fields). -/
structure Payload where
  txid : List Nat
  msgtype : Nat
  fragment : Nat
  lastfrag : Nat
  contentLength : Nat
  content : List Nat
deriving DecidableEq, Repr

/-- `struct.pack` `'4s'`: truncate to four bytes and pad with zeros. -/
def pad4 (txid : List Nat) : List Nat :=
  txid.take 4 ++ List.replicate (4 - txid.length) 0

/-- One `'!4sBBBH'` header: txid, msgtype, fragment index, last fragment
index, and the fragment content length in network byte order. -/
def mkHeader (txid : List Nat) (msgtype fragment lastfrag clen : Nat) :
    List Nat :=
  pad4 txid ++ [msgtype, fragment, lastfrag, clen / 256, clen % 256]

/-- The fragmenting loop of `Payload.pack`: chunks of `MAX_FRAGMENT`
bytes while more than `MAX_FRAGMENT` remain, then one final fragment
with whatever is left.  `lastfrag` is fixed before the loop.  The loop
is driven by a fuel argument for structural recursion; `pack` supplies
`content.length + 1`, which exceeds the fragment count, so the
exhaustion branch is unreachable. -/
def Payload.packGo (txid : List Nat) (msgtype lastfrag : Nat) :
    Nat → Nat → List Nat → List (List Nat)
  | 0, _, _ => []
  | fuel + 1, fragment, content =>
    if MAX_FRAGMENT < content.length then
      (mkHeader txid msgtype fragment lastfrag MAX_FRAGMENT
          ++ content.take MAX_FRAGMENT)
        :: Payload.packGo txid msgtype lastfrag fuel (fragment + 1)
            (content.drop MAX_FRAGMENT)
    else
      [mkHeader txid msgtype fragment lastfrag content.length ++ content]

/-- `Payload.pack`: `lastfrag = floor(len(content) / MAX_FRAGMENT)`,
then the fragmenting loop starting at fragment index 0. -/
def Payload.pack (txid : List Nat) (msgtype : Nat) (content : List Nat) :
    List (List Nat) :=
  Payload.packGo txid msgtype (content.length / MAX_FRAGMENT)
    (content.length + 1) 0 content

/-- `Payload.unpack`: `struct.unpack('!4sBBBH', payload[:9])` requires
nine bytes; the content is the declared number of bytes after the
header, silently truncated to what is available (`# cater for padding`). -/
def Payload.unpack (payload : List Nat) : Except PyErr Payload :=
  if payload.length < 9 then .error .structError
  else
    let clen := payload.getD 7 0 * 256 + payload.getD 8 0
    .ok
      { txid := payload.take 4
        msgtype := payload.getD 4 0
        fragment := payload.getD 5 0
        lastfrag := payload.getD 6 0
        contentLength := clen
        content := (payload.drop 9).take clen }

instance {e a : Type} [DecidableEq e] [DecidableEq a] :
    DecidableEq (Except e a) := fun x y =>
  match x, y with
  | .error e1, .error e2 =>
    if h : e1 = e2 then isTrue (h ▸ rfl)
    else isFalse (fun he => h (Except.error.inj he))
  | .error _, .ok _ => isFalse (fun he => Except.noConfusion he)
  | .ok _, .error _ => isFalse (fun he => Except.noConfusion he)
  | .ok a1, .ok a2 =>
    if h : a1 = a2 then isTrue (h ▸ rfl)
    else isFalse (fun he => h (Except.ok.inj he))

/-- `transport.DefragMap`: txid-keyed table of partially reassembled
fragment vectors. -/
def DefragMap := List (List Nat × List (List Nat))

instance : DecidableEq DefragMap := by
  unfold DefragMap; infer_instance

instance : Repr DefragMap := by
  unfold DefragMap; infer_instance

/-- `DefragMap.get_msg`.  An unfragmented message (`fragid == maxfrag ==
0`) is returned at once without touching the table.  The fragmented path
as written calls `self.map.set_default`, a method that does not exist on
Python dicts (the correct spelling is `setdefault`), so it raises
`AttributeError` before doing anything. -/
def DefragMap.getMsg (m : DefragMap) (txid : List Nat)
    (fragid maxfrag : Nat) (fragment : List Nat) :
    Except PyErr (Option (List Nat) × DefragMap) :=
  if fragid = 0 ∧ maxfrag = 0 then .ok (some fragment, m)
  else .error .attributeError

/-- One outbound unicast recorded by the model of
`Engine.send_external`: destination node id, transaction id, message
type, content. -/
structure SentMsg where
  dest : Nat
  txid : List Nat
  mtype : Nat
  content : List Nat
deriving DecidableEq, Repr

/-- `FindNodes` machine states (`messaging/discovery.py`). -/
inductive FNState where
  | initialised
  | querying
  | waitingResponse
  | exhausted
  | timedout
deriving DecidableEq, Repr

/-- A `FindNodes` transaction's working state.  `closest`/`unqueried`
hold node records (the Python lists hold aliases of the tree's `Node`
objects; only the immutable `node_id` of these entries is ever read
afterwards, so value snapshots are faithful), `queried` holds node ids,
`outstanding` maps node id to query-send time.  `completedRuns` counts
executions of the `_completed` callback, which fires the client callback
when one is attached. -/
structure FNTx where
  target : Nat
  state : FNState
  closest : List Node
  unqueried : List Node
  queried : List Nat
  outstanding : List (Nat × Nat)
  completedRuns : Nat
deriving DecidableEq, Repr

/-- `FindNodes._completed`: time out every peer still outstanding that
is found in the tree, then fire the callback (counted). -/
def FNTx.completed (now : Nat) (tree : RoutingZone) (tx : FNTx) :
    FNTx × RoutingZone :=
  let tree := tx.outstanding.foldl
    (fun tr p =>
      match tr.getNodeById p.1 with
      | some _ => tr.updateById p.1 (Node.timeout now)
      | none => tr)
    tree
  ({ tx with completedRuns := tx.completedRuns + 1 }, tree)

/-- `FindNodes._send_query`: drain `unqueried` into `outstanding` while
below the concurrency bound, sending an FNOD (0x03) for each and
recording the peer as queried; `query_out` is bumped on the aliased tree
record by `send_external`. -/
def FNTx.sendQueryGo (now : Nat) (txid : List Nat) (target : Nat) :
    List Node → List (Nat × Nat) → List Nat → RoutingZone → List SentMsg →
    List Node × List (Nat × Nat) × List Nat × RoutingZone × List SentMsg
  | unqueried, outstanding, queried, tree, sent =>
    match unqueried with
    | [] => ([], outstanding, queried, tree, sent)
    | u :: rest =>
      if outstanding.length < ALPHA then
        FNTx.sendQueryGo now txid target rest
          (outstanding ++ [(u.node_id, now)])
          (queried ++ [u.node_id])
          (tree.updateById u.node_id Node.query_out)
          (sent ++ [{ dest := u.node_id, txid := txid, mtype := 3,
                      content := natToBytes 32 target }])
      else (u :: rest, outstanding, queried, tree, sent)

/-- `FindNodes._send_query` applied to a transaction. -/
def FNTx.sendQuery (now : Nat) (txid : List Nat) (tree : RoutingZone)
    (tx : FNTx) : FNTx × RoutingZone × List SentMsg :=
  let r := FNTx.sendQueryGo now txid tx.target tx.unqueried tx.outstanding
    tx.queried tree []
  ({ tx with unqueried := r.1, outstanding := r.2.1, queried := r.2.2.1 },
    r.2.2.2.1, r.2.2.2.2)

/-- The `response` trigger of the `FindNodes` machine.  Transition order:
`querying|waiting response → exhausted` guarded by `unqueried` and
`outstanding` both empty (running `_completed`), then `querying|waiting
response → querying` guarded by `has_capacity` (running `_send_query`).
When no transition matches (wrong source state, or — unreachable after a
pop — a full outstanding set) the `transitions` machine raises
`MachineError`; the raised flag is returned so the engine model can drop
the datagram while keeping earlier mutations, as the `except` clause
does. -/
def FNTx.responseTrigger (now : Nat) (txid : List Nat) (tree : RoutingZone)
    (tx : FNTx) : FNTx × RoutingZone × List SentMsg × Bool :=
  match tx.state with
  | .querying | .waitingResponse =>
    if tx.unqueried = [] ∧ tx.outstanding = [] then
      let r := FNTx.completed now tree { tx with state := .exhausted }
      (r.1, r.2, [], false)
    else if tx.outstanding.length < ALPHA then
      let r := FNTx.sendQuery now txid tree { tx with state := .querying }
      (r.1, r.2.1, r.2.2, false)
    else (tx, tree, [], true)
  | _ => (tx, tree, [], true)

/-- The `timeout` trigger of the lookup machines: declared with source
`'*'`, it matches every state — including the terminal ones — moves the
transaction to `timedout` (a self-transition when already there) and
runs `_completed` again. -/
def FNTx.timeoutStep (now : Nat) (tree : RoutingZone) (tx : FNTx) :
    FNTx × RoutingZone :=
  FNTx.completed now tree { tx with state := .timedout }

/-- `FindNodes.unpack_response`: repeatedly take a 32-byte id then split
the remainder on the next two NUL bytes into address and decimal port;
any parse failure silently ends the stream (`except: break`). -/
def unpackResponseGo : Nat → List Nat → List (List Nat × Nat × List Nat)
  | 0, _ => []
  | fuel + 1, content =>
    if content = [] then []
    else
      let idBytes := content.take 32
      let rest := content.drop 32
      let address := rest.takeWhile (fun b => !decide (b = 0))
      match rest.dropWhile (fun b => !decide (b = 0)) with
      | [] => []
      | _ :: rest2 =>
        let portBytes := rest2.takeWhile (fun b => !decide (b = 0))
        match rest2.dropWhile (fun b => !decide (b = 0)) with
        | [] => []
        | _ :: remainder =>
          match parseAsciiNat portBytes with
          | none => []
          | some port =>
            (address, port, idBytes) :: unpackResponseGo fuel remainder

/-- `FindNodes.unpack_response` with fuel covering every iteration
(each loop turn consumes at least 34 bytes, so `content.length + 1`
iterations are never reached). -/
def unpackResponse (content : List Nat) : List (List Nat × Nat × List Nat) :=
  unpackResponseGo (content.length + 1) content

/-- `FindNodes.pack_response` (and the identical
`FindValue._pack_node_response`): for each node the raw 32-byte id, the
ASCII address, a NUL, the ASCII decimal port, a NUL. -/
def packNodesResponse (closest : List Node) : List Nat :=
  closest.foldl
    (fun acc x =>
      acc ++ natToBytes 32 x.node_id ++ x.address ++ [0]
        ++ natToAscii x.port ++ [0])
    []

/-- `Engine.verify_peer`: an existing record with matching endpoint is
returned as is; an existing record with a drifted endpoint is updated in
place (identities are stable keys, endpoints may rebind); otherwise a
fresh unverified record is built for the caller to add. -/
def verifyPeer (now : Nat) (tree : RoutingZone) (address : List Nat)
    (port : Nat) (nodeId : Nat) : RoutingZone × Node :=
  match tree.getNodeById nodeId with
  | some node =>
    if node.address = address ∧ node.port = port then (tree, node)
    else
      (tree.updateById nodeId
        (fun m => { m with address := address, port := port }),
        { node with address := address, port := port })
  | none => (tree, Node.create address port nodeId none now)

/-- Result of `FindNodes.handle_response` in the model: the transaction
and tree after the call, the RTT samples recorded, the queries sent, and
whether a `MachineError` escaped (the engine's `except` then drops the
datagram but keeps these mutations). -/
structure FNResult where
  tx : FNTx
  tree : RoutingZone
  rtts : List Nat
  sent : List SentMsg
  raised : Bool
deriving DecidableEq, Repr

/-- `FindNodes.handle_response`.  For a NODE_REPLY (0x04) the endpoint
triples are unpacked, verified and added to the routing tree, ids not
yet queried or pending extend `closest`, which is re-sorted by distance
to the target and truncated to 8, and `unqueried` is recomputed.  Then —
for any response type — the sender is popped from `outstanding`; only
when it was present (first response wins) is its RTT recorded and the
machine's `response` trigger fired. -/
def FNTx.handleResponse (P : TreeParams) (now : Nat) (tree : RoutingZone)
    (tx : FNTx) (peer : Node) (txid : List Nat) (msgtype : Nat)
    (content : List Nat) : FNResult :=
  let step :=
    if msgtype = 4 then
      let r := (unpackResponse content).foldl
        (fun (acc : RoutingZone × List Node) trip =>
          let nid := bytesToNat trip.2.2
          let vp := verifyPeer now acc.1 trip.1 trip.2.1 nid
          let tree' := RoutingZone.add P vp.1 vp.2
          let closest' :=
            if ¬ nid ∈ tx.queried ∧ ¬ nid ∈ tx.unqueried.map Node.node_id
            then acc.2 ++ [vp.2] else acc.2
          (tree', closest'))
        (tree, tx.closest)
      let closest := (sortByDistance tx.target r.2).take 8
      let unqueried :=
        closest.filter (fun x => decide (¬ x.node_id ∈ tx.queried))
      (r.1, { tx with closest := closest, unqueried := unqueried })
    else (tree, tx)
  let tree1 := step.1
  let tx1 := step.2
  match alookup tx1.outstanding peer.node_id with
  | none => { tx := tx1, tree := tree1, rtts := [], sent := [], raised := false }
  | some ts =>
    let tx2 := { tx1 with outstanding :=
      tx1.outstanding.filter (fun p => decide (p.1 ≠ peer.node_id)) }
    if ts ≠ 0 then
      let sample := now - ts
      let tree2 := tree1.updateById peer.node_id (Node.add_rtt sample)
      let r := FNTx.responseTrigger now txid tree2 tx2
      { tx := r.1
        tree := r.2.1
        rtts := [sample]
        sent := r.2.2.1
        raised := r.2.2.2 }
    else { tx := tx2, tree := tree1, rtts := [], sent := [], raised := false }

/-- `MessageState` machine states (`messaging/base.py`), the base shape
shared by `Ping` (and, with extra states, the other lookups). -/
inductive MSState where
  | initialised
  | waitingResponse
  | complete
  | timedout
deriving DecidableEq, Repr

/-- A base `MessageState` transaction reduced to what its `timeout`
trigger touches: the machine state and a count of `_completed` runs. -/
structure MSTx where
  state : MSState
  completedRuns : Nat
deriving DecidableEq, Repr

/-- The `timeout` trigger of `MessageState`: source `'*'` matches every
state, including `complete` and `timedout` themselves, so the machine
always moves to `timedout` and runs `_completed` again. -/
def MSTx.timeoutStep (tx : MSTx) : MSTx :=
  { state := .timedout, completedRuns := tx.completedRuns + 1 }

/-- The engine's mutable state.  `hashtabe` mirrors the attribute of
that name created by the assignment in `Engine.reset` (the stored-value
table proper is the `hashtable` attribute set up by `_load_state`).  The
transaction map is modelled for `FindNodes` transactions, the ones the
claims exercise. -/
structure EngineState where
  addr : List Nat
  port : Nat
  node : Node
  nodetree : RoutingZone
  hashtable : List (List Nat × Nat × Nat × List Nat)
  hashtabe : Option (List (List Nat × Nat × Nat × List Nat))
  defrag : DefragMap
  txmap : List (List Nat × FNTx)
deriving DecidableEq, Repr

/-- `Engine.send_external`: bump the peer's outbound counter by message
parity on the aliased tree record and emit the message (the byte-level
framing of the emission is `Payload.pack` plus the packet header, and
encryption when enabled; the claims quantify over the message-level
log). -/
def Engine.sendExternal (st : EngineState) (node : Node) (txid : List Nat)
    (mtype : Nat) (content : List Nat) : EngineState × List SentMsg :=
  let tree :=
    if mtype % 2 = 0 then st.nodetree.updateById node.node_id Node.response_out
    else st.nodetree.updateById node.node_id Node.query_out
  ({ st with nodetree := tree },
    [{ dest := node.node_id, txid := txid, mtype := mtype, content := content }])

/-- `Discovery.has_message`: the keys of `Discovery.mtype_table`. -/
def discoveryHasMessage (m : Nat) : Bool :=
  m = 1 || m = 2 || m = 3 || m = 4

/-- `DistributedHashtable.has_message`: the keys of its `mtype_table`. -/
def dhtHasMessage (m : Nat) : Bool :=
  m = 5 || m = 6 || m = 8 || m = 9 || m = 10 || m = 11 || m = 12

/-- `Discovery.handle_peer`: PING (0x01) is answered with PONG (0x02);
FNOD (0x03) asserts a 32-byte target and answers with the closest known
non-failed nodes (0x04).  The boolean reports an assertion failure
(caught by the engine). -/
def discoveryHandlePeer (st : EngineState) (peer : Node) (txid : List Nat)
    (msgtype : Nat) (content : List Nat) : EngineState × List SentMsg × Bool :=
  if msgtype = 1 then
    let r := Engine.sendExternal st peer txid 2 []
    (r.1, r.2, false)
  else if msgtype = 3 then
    if content.length ≠ 32 then (st, [], true)
    else
      let closest := (st.nodetree.closestTo (bytesToNat content) K).filter
        (fun x => decide (¬ x.state = NodeState.failed))
      let r := Engine.sendExternal st peer txid 4 (packNodesResponse closest)
      (r.1, r.2, false)
  else (st, [], false)

/-- `DistributedHashtable.handle_peer`.  FVAL (0x05) asserts a 32-byte
key id and answers with the stored value (0x08) or the closest known
nodes (0x06).  STOR (0x09) derives the table key by hashing the entire
message content — the concatenated key and value bytes — and stores the
entire content under it, stamped with the sender and the current time.
`id_for_key` (SHA-256 from `hashlib`) is passed in as a function
parameter. -/
def dhtHandlePeer (idForKey : List Nat → List Nat) (now : Nat)
    (st : EngineState) (peer : Node) (txid : List Nat) (msgtype : Nat)
    (content : List Nat) : EngineState × List SentMsg × Bool :=
  if msgtype = 5 then
    if content.length ≠ 32 then (st, [], true)
    else
      match alookup st.hashtable content with
      | some entry =>
        let r := Engine.sendExternal st peer txid 8 entry.2.2
        (r.1, r.2, false)
      | none =>
        let r := Engine.sendExternal st peer txid 6
          (packNodesResponse (st.nodetree.closestTo (bytesToNat content) K))
        (r.1, r.2, false)
  else if msgtype = 9 then
    let ht := aset st.hashtable (idForKey content) (peer.node_id, now, content)
    ({ st with hashtable := ht }, [], false)
  else (st, [], false)

/-- `Engine.recv_external`, the whole inbound datagram path inside its
`try/except`.  Notes kept from the source:
* `Packet.unpack` opens with `if msg < 36`, comparing a byte string to
  an int — always false in Python 2, a dead guard; the real length check
  is `struct.unpack('!32sB', msg[:33])`, which needs 33 bytes;
* decryption (mode 0x02) uses the NaCl box of the two curve keys; it is
  passed in as a function returning `none` on authentication failure;
* any exception drops the datagram, keeping the mutations already made;
* odd message types are peer queries dispatched through the registries,
  even ones are routed to the matching transaction. -/
def Engine.recvExternal (P : TreeParams)
    (decrypt : Nat → List Nat → Option (List Nat))
    (idForKey : List Nat → List Nat) (now : Nat) (st : EngineState)
    (srcAddr : List Nat) (srcPort : Nat) (data : List Nat) :
    EngineState × List SentMsg :=
  if data.length < 33 then (st, [])
  else
    let nodeId := bytesToNat (data.take 32)
    let mode := data.getD 32 0
    let payloadOpt :=
      if mode = 2 then decrypt nodeId (data.drop 33) else some (data.drop 33)
    match payloadOpt with
    | none => (st, [])
    | some payload =>
      match Payload.unpack payload with
      | .error _ => (st, [])
      | .ok pl =>
        let vp := verifyPeer now st.nodetree srcAddr srcPort nodeId
        let tree1 := vp.1
        let peer := vp.2
        match DefragMap.getMsg st.defrag pl.txid pl.fragment pl.lastfrag
            pl.content with
        | .error _ => ({ st with nodetree := tree1 }, [])
        | .ok (msg, defrag1) =>
          match msg with
          | none => ({ st with nodetree := tree1, defrag := defrag1 }, [])
          | some _ =>
            let tree2 := RoutingZone.add P tree1 peer
            if pl.msgtype % 2 = 1 then
              let tree3 := tree2.updateById peer.node_id (Node.query_in now)
              let st1 := { st with nodetree := tree3, defrag := defrag1 }
              let d1 :=
                if discoveryHasMessage pl.msgtype then
                  discoveryHandlePeer st1 peer pl.txid pl.msgtype pl.content
                else (st1, [], false)
              if d1.2.2 then (d1.1, d1.2.1)
              else
                let d2 :=
                  if dhtHasMessage pl.msgtype then
                    dhtHandlePeer idForKey now d1.1 peer pl.txid pl.msgtype
                      pl.content
                  else (d1.1, [], false)
                (d2.1, d1.2.1 ++ d2.2.1)
            else
              match Node.response_in now peer with
              | none => ({ st with nodetree := tree2, defrag := defrag1 }, [])
              | some peer2 =>
                let tree3 := tree2.updateById peer.node_id (fun _ => peer2)
                match alookup st.txmap pl.txid with
                | none =>
                  ({ st with nodetree := tree3, defrag := defrag1 }, [])
                | some tx =>
                  let r := FNTx.handleResponse P now tree3 tx peer2 pl.txid
                    pl.msgtype pl.content
                  ({ st with
                      nodetree := r.tree
                      defrag := defrag1
                      txmap := aset st.txmap pl.txid r.tx }, r.sent)

/-- `Engine.reset`: a fresh identity, a fresh routing tree seeded with
the local node, fresh transaction and defragmentation maps.  The key
material handling (`zmq.curve_keypair`, z85 decoding and the
derived-key assertion) is external crypto performed before this point,
so the model takes the decoded key pair.  The assignment meant to clear
the stored-value table writes the attribute `hashtabe`, so the
`hashtable` attribute is left untouched. -/
def Engine.reset (now : Nat) (st : EngineState) (publicKey secretKey : Nat) :
    EngineState :=
  let node := Node.create st.addr st.port publicKey (some secretKey) now
  let P : TreeParams := { localId := publicKey, bdepth := B, binsize := K }
  let tree := RoutingZone.add P (RoutingZone.leaf 0 (RoutingBin.mkEmpty K)) node
  { st with
    node := node
    hashtabe := some []
    nodetree := tree
    txmap := []
    defrag := ([] : DefragMap) }

/-- Parse a whole fragment list with `Payload.unpack`, failing if any
fragment is malformed (used to state the pack/unpack round trip). -/
def unpackAll : List (List Nat) → Option (List Payload)
  | [] => some []
  | f :: fs =>
    match Payload.unpack f with
    | .error _ => none
    | .ok p => (unpackAll fs).map (fun ps => p :: ps)

/-- A fresh peer record on a fixed endpoint (concrete test input). -/
def exNode (id : Nat) : Node := Node.create [49] 7000 id none 0

/-- A routing bin holding fresh records for the given ids. -/
def exBin (ids : List Nat) : RoutingBin :=
  { maxsize := 8, nodes := ids.map (fun i => (i, exNode i)), replacements := [] }

/-- Tree parameters of a tree whose local node id is 1. -/
def exParams : TreeParams := { localId := 1, bdepth := 5, binsize := 8 }

/-- A one-leaf routing tree holding only node 1. -/
def exTreeSmall : RoutingZone := .leaf 0 (exBin [1])

/-- A depth-one routing tree: ids 5 and 3 under the 0-bit child, two
ids with a leading 1 bit under the 1-bit child. -/
def exZone : RoutingZone :=
  .node 0 (.leaf 1 (exBin [5, 3]))
    (.leaf 1 (exBin [2 ^ 255 + 1, 2 ^ 255 + 9]))

/-- A querying FindNodes transaction with one outstanding query to peer
99 and empty working sets. -/
def exTx : FNTx :=
  { target := 0
    state := .querying
    closest := []
    unqueried := []
    queried := []
    outstanding := [(99, 5)]
    completedRuns := 0 }

/-- Like `exTx` but with peer 99 already queried, so that a response
from 99 exhausts the lookup. -/
def exTxQ : FNTx := { exTx with queried := [99] }

/-- A `FindNodes` transaction that reached the terminal state
`exhausted` through the machine itself: peer 99's response arrives with
`unqueried` empty and, after the pop, `outstanding` empty. -/
def exTxExhausted : FNTx :=
  (FNTx.handleResponse exParams 1000 exTreeSmall exTxQ (exNode 99)
    [0, 0, 0, 1] 2 []).tx

/-- NODE_REPLY content carrying one endpoint triple for node 42 at
ASCII `1.2.3.4`, port `7000`. -/
def exContent42 : List Nat :=
  natToBytes 32 42 ++ [49, 46, 50, 46, 51, 46, 52] ++ [0]
    ++ [55, 48, 48, 48] ++ [0]

/-- A small engine state: local node 1, one-leaf tree, empty tables. -/
def exEngine : EngineState :=
  { addr := [49]
    port := 7001
    node := exNode 1
    nodetree := exTreeSmall
    hashtable := []
    hashtabe := none
    defrag := []
    txmap := [] }

/-- A 42-byte plaintext datagram from node 77 whose payload header
declares a content length of 5 while zero content bytes remain: sender
id (32 bytes), mode 0x01, txid, msgtype 0x07 (odd, in no registry
table), fragment 0 of 0, declared length 5. -/
def exBadDatagram : List Nat :=
  natToBytes 32 77 ++ [1] ++ [0, 0, 0, 9] ++ [7, 0, 0] ++ [0, 5]

/-- A full bin of eight distinct records containing the local id 1;
two records have a leading 1 bit. -/
def exFullBin : RoutingBin :=
  exBin [1, 2, 3, 2 ^ 255 + 1, 5, 2 ^ 255 + 2, 7, 8]

theorem alookup_map_set {α β : Type} [DecidableEq α] (l : List (α × β))
    (k : α) (v : β)
    (hf : (l.find? (fun p => decide (p.1 = k))).isSome = true) :
    alookup (l.map (fun p => if p.1 = k then (k, v) else p)) k = some v := by
  induction l with
  | nil => simp at hf
  | cons p t ih =>
    by_cases hp : p.1 = k
    · simp [alookup, List.find?, hp]
    · have ht : (t.find? (fun p => decide (p.1 = k))).isSome = true := by
        simpa [List.find?, hp] using hf
      simpa [alookup, List.find?, hp] using ih ht

theorem alookup_map_set_ne {α β : Type} [DecidableEq α] (l : List (α × β))
    (k k' : α) (v : β) (h : k' ≠ k) :
    alookup (l.map (fun p => if p.1 = k then (k, v) else p)) k'
      = alookup l k' := by
  induction l with
  | nil => simp [alookup]
  | cons p t ih =>
    unfold alookup at ih ⊢
    simp only [List.map_cons, List.find?_cons]
    by_cases hd : p.1 = k'
    · have hpk : ¬ p.1 = k := fun he => h (hd.symm.trans he)
      rw [if_neg hpk, decide_eq_true hd]
    · have hdf : decide (p.1 = k') = false := decide_eq_false hd
      by_cases hp : p.1 = k
      · have hkf : decide ((if p.1 = k then (k, v) else p).1 = k') = false := by
          rw [if_pos hp]; exact decide_eq_false (fun he => h he.symm)
        rw [hkf, hdf]
        exact ih
      · have hkf : decide ((if p.1 = k then (k, v) else p).1 = k') = false := by
          rw [if_neg hp]; exact hdf
        rw [hkf, hdf]
        exact ih

theorem alookup_aset_self {α β : Type} [DecidableEq α] (l : List (α × β))
    (k : α) (v : β) : alookup (aset l k v) k = some v := by
  unfold aset
  by_cases hf : (l.find? (fun p => decide (p.1 = k))).isSome = true
  · rw [if_pos hf]; exact alookup_map_set l k v hf
  · rw [if_neg hf]
    have hn : l.find? (fun p => decide (p.1 = k)) = none :=
      Option.not_isSome_iff_eq_none.mp hf
    simp [alookup, List.find?_append, hn, List.find?]

theorem alookup_aset_ne {α β : Type} [DecidableEq α] (l : List (α × β))
    (k k' : α) (v : β) (h : k' ≠ k) :
    alookup (aset l k v) k' = alookup l k' := by
  unfold aset
  by_cases hf : (l.find? (fun p => decide (p.1 = k))).isSome = true
  · rw [if_pos hf]; exact alookup_map_set_ne l k k' v h
  · rw [if_neg hf]
    have hkk : ¬ k = k' := fun he => h he.symm
    simp [alookup, List.find?_append, List.find?, hkk]

/-- C1.  The claim says a record in `discovered` or `verified` with
failure counter 0 reaches `failed` exactly on the third consecutive
`timeout()`.  Counterexample: on a fresh `discovered` record, three
consecutive `timeout()` calls (with no intervening `response_in()`)
leave the state `discovered` — not `failed` — with the counter at 3,
because `has_failed` tests `failures >= 3` before the self-transition's
`after` callback increments the counter. -/
theorem c1_counterexample :
    (exNode 5).state = NodeState.discovered ∧ (exNode 5).failures = 0 ∧
    (Node.timeout 3 (Node.timeout 2 (Node.timeout 1 (exNode 5)))).state
      = NodeState.discovered ∧
    (Node.timeout 3 (Node.timeout 2 (Node.timeout 1 (exNode 5)))).state
      ≠ NodeState.failed ∧
    (Node.timeout 3 (Node.timeout 2 (Node.timeout 1 (exNode 5)))).failures
      = 3 := by
  decide

/-- C1 (amended).  For a record in `discovered` or `verified` with
failure counter 0, the first three consecutive `timeout()` calls leave
the state unchanged and raise the counter to 1, 2, 3; the fourth call
moves the record to `failed`.  `response_in()` (defined exactly on
non-`failed` states) resets the counter to 0. -/
theorem c1_amended_fourth_timeout (n : Node) (t1 t2 t3 t4 : Nat)
    (hst : n.state = NodeState.discovered ∨ n.state = NodeState.verified)
    (hf : n.failures = 0) :
    (Node.timeout t1 n).state = n.state ∧
    (Node.timeout t1 n).failures = 1 ∧
    (Node.timeout t2 (Node.timeout t1 n)).state = n.state ∧
    (Node.timeout t2 (Node.timeout t1 n)).failures = 2 ∧
    (Node.timeout t3 (Node.timeout t2 (Node.timeout t1 n))).state = n.state ∧
    (Node.timeout t3 (Node.timeout t2 (Node.timeout t1 n))).failures = 3 ∧
    (Node.timeout t4 (Node.timeout t3 (Node.timeout t2
      (Node.timeout t1 n)))).state = NodeState.failed ∧
    (∀ (now : Nat) (m : Node), m.state ≠ NodeState.failed →
      ∃ m2, Node.response_in now m = some m2 ∧ m2.failures = 0) := by
  have hr : ∀ (now : Nat) (m : Node), m.state ≠ NodeState.failed →
      ∃ m2, Node.response_in now m = some m2 ∧ m2.failures = 0 := by
    intro now m hm
    unfold Node.response_in
    match hms : m.state with
    | .failed => exact absurd hms hm
    | .discovered => exact ⟨_, rfl, rfl⟩
    | .verified => exact ⟨_, rfl, rfl⟩
  rcases hst with h | h <;>
    (refine ⟨?_, ?_, ?_, ?_, ?_, ?_, ?_, hr⟩ <;> simp [Node.timeout, h, hf])

/-- C3.  The claim says `timeout()` on a transaction already in a
terminal state is a no-op.  Counterexample: a `FindNodes` transaction
that reached `exhausted` through the machine itself moves to `timedout`
on `timeout()` and its `_completed` callback runs a second time, because
the timeout transition is declared with the wildcard source `'*'`. -/
theorem c3_counterexample :
    exTxExhausted.state = FNState.exhausted ∧
    exTxExhausted.completedRuns = 1 ∧
    (FNTx.timeoutStep 2000 exTreeSmall exTxExhausted).1.state
      ≠ exTxExhausted.state ∧
    (FNTx.timeoutStep 2000 exTreeSmall exTxExhausted).1.state
      = FNState.timedout ∧
    (FNTx.timeoutStep 2000 exTreeSmall exTxExhausted).1.completedRuns
      = exTxExhausted.completedRuns + 1 := by
  decide

/-- C3 (amended).  `timeout()` on a transaction in a terminal state is
not a no-op: the wildcard-source timeout transition fires from every
state, so the transaction moves to `timedout` (a self-transition when
already there) and the `_completed` callback — and hence any attached
completion callback — runs again.  Peer failure counters are touched
only for peers still in `outstanding` (none when the terminal state was
reached by exhaustion, which requires `outstanding` to be empty); the
routing tree is unchanged in that case.  The base `MessageState` machine
behaves the same from its terminal states `complete` and `timedout`. -/
theorem c3_amended_timeout_not_noop (tx : FNTx) (tree : RoutingZone)
    (now : Nat)
    (hterm : tx.state = FNState.exhausted ∨ tx.state = FNState.timedout) :
    (FNTx.timeoutStep now tree tx).1.state = FNState.timedout ∧
    (FNTx.timeoutStep now tree tx).1.completedRuns = tx.completedRuns + 1 ∧
    (tx.outstanding = [] → (FNTx.timeoutStep now tree tx).2 = tree) ∧
    (∀ ms : MSTx,
      ms.state = MSState.complete ∨ ms.state = MSState.timedout →
      (MSTx.timeoutStep ms).state = MSState.timedout ∧
      (MSTx.timeoutStep ms).completedRuns = ms.completedRuns + 1) := by
  refine ⟨rfl, rfl, ?_, ?_⟩
  · intro h
    simp [FNTx.timeoutStep, FNTx.completed, h]
  · intro ms _
    exact ⟨rfl, rfl⟩

/-- C4.  `DefragMap.get_msg` on any fragmented message (last fragment
index at least 1) raises `AttributeError` — the code calls
`dict.set_default`, which does not exist (the dict method is
`setdefault`) — so no fragment is ever buffered and reassembly never
happens; `recv_external` catches the exception and drops the datagram.
An unfragmented message (fragment 0 of 0) is returned immediately
without touching the table, as the claim says. -/
theorem c4_defrag_fragmented_raises :
    DefragMap.getMsg ([] : DefragMap) [0, 0, 0, 1] 0 1 [104, 105]
      = .error PyErr.attributeError ∧
    DefragMap.getMsg ([] : DefragMap) [0, 0, 0, 1] 1 1 [106]
      = .error PyErr.attributeError ∧
    DefragMap.getMsg ([] : DefragMap) [0, 0, 0, 1] 0 0 [104, 105]
      = .ok (some [104, 105], ([] : DefragMap)) :=
  ⟨rfl, rfl, rfl⟩

/-- C7.  The claim says the STOR (0x09) handler stores exactly the value
bytes under the key identifier derived from the key bytes.  The handler
actually computes `id_for_key(content)` over the whole message body —
the concatenated key and value bytes — and stores the whole body as the
value: with body `foo ++ bar` the table gains the entry
`(sender, now, foobar)` under `idForKey(foobar)` while the slot
`idForKey(foo)` that FVAL lookups for key `foo` would probe is left
untouched (for any injective hash). -/
theorem c7_stor_stores_whole_content (idForKey : List Nat → List Nat)
    (hinj : Function.Injective idForKey) (st : EngineState) (peer : Node)
    (txid : List Nat) (now : Nat) :
    (dhtHandlePeer idForKey now st peer txid 9
        ([102, 111, 111] ++ [98, 97, 114])).2 = ([], false) ∧
    alookup (dhtHandlePeer idForKey now st peer txid 9
        ([102, 111, 111] ++ [98, 97, 114])).1.hashtable
        (idForKey ([102, 111, 111] ++ [98, 97, 114]))
      = some (peer.node_id, now, [102, 111, 111] ++ [98, 97, 114]) ∧
    alookup (dhtHandlePeer idForKey now st peer txid 9
        ([102, 111, 111] ++ [98, 97, 114])).1.hashtable
        (idForKey [102, 111, 111])
      = alookup st.hashtable (idForKey [102, 111, 111]) ∧
    ([102, 111, 111] ++ [98, 97, 114] : List Nat) ≠ [98, 97, 114] := by
  have hne : idForKey [102, 111, 111]
      ≠ idForKey ([102, 111, 111] ++ [98, 97, 114]) := by
    intro he
    have := hinj he
    simp at this
  refine ⟨rfl, ?_, ?_, by decide⟩
  · exact alookup_aset_self _ _ _
  · exact alookup_aset_ne _ _ _ _ hne

/-- C9.  The claim says a response from a peer not in `outstanding`
leaves the transaction's closest/unqueried/queried working sets and the
routing tree unchanged.  Counterexample: a NODE_REPLY from peer 77,
which is not in `outstanding`, still has its endpoint triples processed:
node 42 is added to the routing tree and enters `closest`; only the
machine state stays put and no RTT sample or query is produced. -/
theorem c9_counterexample :
    alookup exTx.outstanding (exNode 77).node_id = none ∧
    (FNTx.handleResponse exParams 1000 exTreeSmall exTx (exNode 77)
        [0, 0, 0, 1] 4 exContent42).tx.closest ≠ exTx.closest ∧
    (FNTx.handleResponse exParams 1000 exTreeSmall exTx (exNode 77)
        [0, 0, 0, 1] 4 exContent42).tree ≠ exTreeSmall ∧
    (FNTx.handleResponse exParams 1000 exTreeSmall exTx (exNode 77)
        [0, 0, 0, 1] 4 exContent42).tx.state = exTx.state ∧
    (FNTx.handleResponse exParams 1000 exTreeSmall exTx (exNode 77)
        [0, 0, 0, 1] 4 exContent42).rtts = [] := by
  decide

/-- C9 (amended).  A response from a peer whose id is not in
`outstanding` causes no state transition, no RTT sample, no new queries
and no `MachineError`, and leaves `queried`, `outstanding`, the target
and the completion count unchanged — but a NODE_REPLY's content is still
processed first, so `closest`, `unqueried` and the routing tree may
change. -/
theorem c9_amended_duplicate_response (P : TreeParams) (now : Nat)
    (tree : RoutingZone) (tx : FNTx) (peer : Node) (txid : List Nat)
    (msgtype : Nat) (content : List Nat)
    (h : alookup tx.outstanding peer.node_id = none) :
    (FNTx.handleResponse P now tree tx peer txid msgtype content).tx.state
      = tx.state ∧
    (FNTx.handleResponse P now tree tx peer txid msgtype content).tx.queried
      = tx.queried ∧
    (FNTx.handleResponse P now tree tx peer txid msgtype
        content).tx.outstanding = tx.outstanding ∧
    (FNTx.handleResponse P now tree tx peer txid msgtype
        content).tx.completedRuns = tx.completedRuns ∧
    (FNTx.handleResponse P now tree tx peer txid msgtype content).tx.target
      = tx.target ∧
    (FNTx.handleResponse P now tree tx peer txid msgtype content).rtts
      = [] ∧
    (FNTx.handleResponse P now tree tx peer txid msgtype content).sent
      = [] ∧
    (FNTx.handleResponse P now tree tx peer txid msgtype content).raised
      = false := by
  by_cases hm : msgtype = 4 <;>
    simp [FNTx.handleResponse, hm, h]

/-- C10.  `Engine.reset` replaces the node identity, routing tree,
transaction map and defragmentation map, but the assignment meant to
clear the stored-value table writes the attribute `hashtabe`, so the
`hashtable` attribute — and with it every stored entry — survives a
reset (including one triggered by the client RESET/START rekey
command, which calls this method). -/
theorem binWf_values_pairwise (bin : RoutingBin) (hwf : BinWf bin) :
    bin.get_all.Pairwise (fun a b => a.node_id ≠ b.node_id) := by
  obtain ⟨hpw, hkeys⟩ := hwf
  unfold RoutingBin.get_all
  rw [List.pairwise_map]
  exact hpw.imp_of_mem (fun ha hb hne => by
    rw [← (hkeys _ ha).1, ← (hkeys _ hb).1]; exact hne)

theorem bitNumber_le_one (v i : Nat) : bitNumber v i ≤ 1 := by
  unfold bitNumber
  split
  · omega
  · exact Nat.and_le_right

theorem shiftRight_and_one (v k : Nat) :
    (v >>> k) &&& 1 = if v.testBit k then 1 else 0 := by
  rw [Nat.and_one_is_mod, Nat.shiftRight_eq_div_pow]
  have hm : v / 2 ^ k % 2 < 2 := Nat.mod_lt _ (by omega)
  cases hb : v.testBit k
  · rw [Nat.testBit_to_div_mod] at hb
    simp at hb
    simpa using by omega
  · rw [Nat.testBit_to_div_mod] at hb
    simp at hb
    simpa using hb

theorem bitNumber_eq_testBit {i : Nat} (hi : i < KEY_BITS) (v : Nat) :
    bitNumber v i = if v.testBit (KEY_BITS - 1 - i) then 1 else 0 := by
  unfold bitNumber
  rw [if_neg (by omega)]
  exact shiftRight_and_one v _

theorem testBit_eq_of_bitNumber_eq {x y i : Nat} (hi : i < KEY_BITS)
    (h : bitNumber x i = bitNumber y i) :
    x.testBit (KEY_BITS - 1 - i) = y.testBit (KEY_BITS - 1 - i) := by
  rw [bitNumber_eq_testBit hi, bitNumber_eq_testBit hi] at h
  cases hx : x.testBit (KEY_BITS - 1 - i) <;>
    cases hy : y.testBit (KEY_BITS - 1 - i) <;>
    rw [hx, hy] at h <;> simp_all

theorem testBit_ne_of_bitNumber_ne {x y i : Nat} (hi : i < KEY_BITS)
    (h : bitNumber x i ≠ bitNumber y i) :
    x.testBit (KEY_BITS - 1 - i) ≠ y.testBit (KEY_BITS - 1 - i) :=
  fun he => h (by
    rw [bitNumber_eq_testBit hi, bitNumber_eq_testBit hi, he])

theorem distance_right_inj {a b t : Nat} (h : distance a t = distance b t) :
    a = b := by
  have h2 := congrArg (fun z => z ^^^ t) h
  simpa [distance, Nat.xor_assoc] using h2

theorem testBit_high_false {v j : Nat} (hv : v < 2 ^ KEY_BITS)
    (hj : KEY_BITS ≤ j) : v.testBit j = false :=
  Nat.testBit_eq_false_of_lt
    (lt_of_lt_of_le hv (Nat.pow_le_pow_right (by omega) hj))

/-- The key metric fact behind `closest_to`: when two identifiers agree
with each other on every bit above position `d` and exactly one of them
agrees with the target on bit `d`, the agreeing one is strictly closer
in XOR distance, whatever the lower bits hold. -/
theorem dist_lt_of_bit {x y t d : Nat} (hx : x < 2 ^ KEY_BITS)
    (hy : y < 2 ^ KEY_BITS) (ht : t < 2 ^ KEY_BITS) (hd : d < KEY_BITS)
    (hagree : ∀ i, i < d → bitNumber x i = bitNumber y i)
    (hxd : bitNumber x d = bitNumber t d)
    (hyd : bitNumber y d ≠ bitNumber t d) :
    distance x t < distance y t := by
  unfold distance
  apply Nat.lt_of_testBit (KEY_BITS - 1 - d)
  · rw [Nat.testBit_xor, testBit_eq_of_bitNumber_eq hd hxd]
    simp
  · rw [Nat.testBit_xor]
    have hne := testBit_ne_of_bitNumber_ne hd hyd
    revert hne
    cases hyb : y.testBit (KEY_BITS - 1 - d) <;>
      cases htb : t.testBit (KEY_BITS - 1 - d) <;> simp
  · intro j hj
    rw [Nat.testBit_xor, Nat.testBit_xor]
    by_cases hjb : j < KEY_BITS
    · have hij : KEY_BITS - 1 - j < d := by omega
      have h2 := testBit_eq_of_bitNumber_eq
        (show KEY_BITS - 1 - j < KEY_BITS by omega) (hagree _ hij)
      have hjj : KEY_BITS - 1 - (KEY_BITS - 1 - j) = j := by omega
      rw [hjj] at h2
      rw [h2]
    · rw [testBit_high_false hx (by omega), testBit_high_false hy (by omega)]

theorem zoneWf_ids_lt {z : RoutingZone} (hwf : ZoneWf z) :
    ∀ x ∈ z.allNodes, x.node_id < 2 ^ KEY_BITS := by
  induction z with
  | leaf d bin =>
    intro x hx
    obtain ⟨_, hkeys⟩ := hwf
    unfold RoutingZone.allNodes RoutingBin.get_all at hx
    rcases List.mem_map.mp hx with ⟨p, hp, rfl⟩
    exact (hkeys p hp).2
  | node d c0 c1 ih0 ih1 =>
    intro x hx
    obtain ⟨h0, h1, _, _, _, _, _⟩ := hwf
    unfold RoutingZone.allNodes at hx
    rcases List.mem_append.mp hx with h | h
    · exact ih0 h0 x h
    · exact ih1 h1 x h

theorem zoneWf_pairwise {z : RoutingZone} (hwf : ZoneWf z) :
    z.allNodes.Pairwise (fun a b => a.node_id ≠ b.node_id) := by
  induction z with
  | leaf d bin => exact binWf_values_pairwise bin hwf
  | node d c0 c1 ih0 ih1 =>
    obtain ⟨h0, h1, _, _, hb0, hb1, _⟩ := hwf
    unfold RoutingZone.allNodes
    rw [List.pairwise_append]
    refine ⟨ih0 h0, ih1 h1, ?_⟩
    intro a ha b hb he
    have e0 := hb0 a ha
    have e1 := hb1 b hb
    rw [he] at e0
    omega

theorem sep_match {d : Nat} {c0 c1 : RoutingZone} {t : Nat}
    (hwf : ZoneWf (.node d c0 c1)) (ht : t < 2 ^ KEY_BITS)
    (hb : bitNumber t d = 0) :
    ∀ x ∈ c0.allNodes, ∀ y ∈ c1.allNodes, distLt t x y := by
  obtain ⟨h0, h1, _, _, hb0, hb1, hagree⟩ := hwf
  intro x hx y hy
  by_cases hdK : d < KEY_BITS
  · unfold distLt
    apply dist_lt_of_bit (zoneWf_ids_lt h0 x hx) (zoneWf_ids_lt h1 y hy) ht hdK
    · intro i hi
      exact hagree x (List.mem_append_left _ hx) y (List.mem_append_right _ hy)
        i hi
    · rw [hb0 x hx, hb]
    · rw [hb1 y hy, hb]
      omega
  · exfalso
    have h1y := hb1 y hy
    unfold bitNumber at h1y
    rw [if_pos (by omega)] at h1y
    omega

theorem sep_nomatch {d : Nat} {c0 c1 : RoutingZone} {t : Nat}
    (hwf : ZoneWf (.node d c0 c1)) (ht : t < 2 ^ KEY_BITS)
    (hb : ¬ bitNumber t d = 0) :
    ∀ x ∈ c1.allNodes, ∀ y ∈ c0.allNodes, distLt t x y := by
  obtain ⟨h0, h1, _, _, hb0, hb1, hagree⟩ := hwf
  intro x hx y hy
  by_cases hdK : d < KEY_BITS
  · have ht1 : bitNumber t d = 1 := by
      have := bitNumber_le_one t d
      omega
    unfold distLt
    apply dist_lt_of_bit (zoneWf_ids_lt h1 x hx) (zoneWf_ids_lt h0 y hy) ht hdK
    · intro i hi
      exact hagree x (List.mem_append_right _ hx) y (List.mem_append_left _ hy)
        i hi
    · rw [hb1 x hx, ht1]
    · rw [hb0 y hy, ht1]
      omega
  · exfalso
    apply hb
    unfold bitNumber
    rw [if_pos (by omega)]

theorem sorted_distLt_of_le {t : Nat} {l : List Node}
    (hs : l.Sorted (distLe t))
    (hp : l.Pairwise (fun a b => a.node_id ≠ b.node_id)) :
    l.Sorted (distLt t) := by
  unfold List.Sorted at hs ⊢
  refine (hs.and hp).imp ?_
  intro a b hab
  have hne : distance a.node_id t ≠ distance b.node_id t :=
    fun he => hab.2 (distance_right_inj he)
  exact lt_of_le_of_ne hab.1 hne

theorem sorted_unique {t : Nat} {l₁ l₂ : List Node} (hperm : l₁.Perm l₂)
    (h1 : l₁.Sorted (distLe t)) (h2 : l₂.Sorted (distLe t))
    (hp : l₁.Pairwise (fun a b => a.node_id ≠ b.node_id)) : l₁ = l₂ := by
  have hp2 : l₂.Pairwise (fun a b => a.node_id ≠ b.node_id) :=
    (List.Perm.pairwise_iff (fun h => h.symm) hperm).mp hp
  exact List.eq_of_perm_of_sorted hperm (sorted_distLt_of_le h1 hp)
    (sorted_distLt_of_le h2 hp2)

theorem sortByDistance_append {t : Nat} {l A C : List Node}
    (hperm : l.Perm (A ++ C))
    (hsep : ∀ x ∈ A, ∀ y ∈ C, distLt t x y)
    (hp : l.Pairwise (fun a b => a.node_id ≠ b.node_id)) :
    sortByDistance t l = sortByDistance t A ++ sortByDistance t C := by
  unfold sortByDistance
  apply sorted_unique (t := t)
  · exact (List.perm_insertionSort _ l).trans (hperm.trans
      ((List.perm_insertionSort _ A).symm.append
        (List.perm_insertionSort _ C).symm))
  · exact List.sorted_insertionSort _ l
  · unfold List.Sorted
    rw [List.pairwise_append]
    refine ⟨List.sorted_insertionSort _ A, List.sorted_insertionSort _ C, ?_⟩
    intro a ha c hc
    have ha' := (List.mem_insertionSort _).mp ha
    have hc' := (List.mem_insertionSort _).mp hc
    exact le_of_lt (hsep a ha' c hc')
  · exact ((List.perm_insertionSort _ l).pairwise_iff
      (fun h => h.symm)).mpr hp

/-- `closest_to` on any well-formed routing tree computes exactly the
first `m` records of the whole tree sorted by XOR distance to the
target. -/
theorem closestTo_eq (t : Nat) (ht : t < 2 ^ KEY_BITS) :
    ∀ z : RoutingZone, ZoneWf z → ∀ m : Nat,
      z.closestTo t m = (sortByDistance t z.allNodes).take m := by
  intro z
  induction z with
  | leaf d bin => intro _ m; rfl
  | node d c0 c1 ih0 ih1 =>
    intro hwf m
    have hpw := zoneWf_pairwise hwf
    unfold RoutingZone.allNodes at hpw
    obtain ⟨h0, h1, _, _, hb0, hb1, hagree⟩ := hwf
    simp only [RoutingZone.closestTo, RoutingZone.allNodes]
    by_cases hbit : bitNumber t d = 0
    · rw [if_pos hbit]
      have hsplit := sortByDistance_append (List.Perm.refl _)
        (sep_match ⟨h0, h1, ‹_›, ‹_›, hb0, hb1, hagree⟩ ht hbit) hpw
      rw [hsplit, List.take_append_eq_append_take, ih0 h0 m]
      have hlen : (sortByDistance t c0.allNodes).length
          = c0.allNodes.length := List.length_insertionSort _ _
      by_cases hlt :
          ((sortByDistance t c0.allNodes).take m).length < m
      · rw [if_pos hlt]
        have hslen : (sortByDistance t c0.allNodes).length < m := by
          rw [List.length_take] at hlt
          omega
        rw [List.take_of_length_le (le_of_lt hslen),
          ih1 h1 (m - (sortByDistance t c0.allNodes).length)]
      · rw [if_neg hlt]
        have hslen : m ≤ (sortByDistance t c0.allNodes).length := by
          rw [List.length_take] at hlt
          omega
        rw [show m - (sortByDistance t c0.allNodes).length = 0 by omega]
        simp
    · rw [if_neg hbit]
      have hsplit := sortByDistance_append List.perm_append_comm
        (sep_nomatch ⟨h0, h1, ‹_›, ‹_›, hb0, hb1, hagree⟩ ht hbit) hpw
      rw [hsplit, List.take_append_eq_append_take, ih1 h1 m]
      by_cases hlt :
          ((sortByDistance t c1.allNodes).take m).length < m
      · rw [if_pos hlt]
        have hslen : (sortByDistance t c1.allNodes).length < m := by
          rw [List.length_take] at hlt
          omega
        rw [List.take_of_length_le (le_of_lt hslen),
          ih0 h0 (m - (sortByDistance t c1.allNodes).length)]
      · rw [if_neg hlt]
        have hslen : m ≤ (sortByDistance t c1.allNodes).length := by
          rw [List.length_take] at hlt
          omega
        rw [show m - (sortByDistance t c1.allNodes).length = 0 by omega]
        simp

/-- C2.  On every well-formed routing tree (bins keyed by their
records' 256-bit ids without duplicates, records placed under the child
matching each consumed bit — the invariants of every tree the library
builds) and every in-range target, `closest_to(target, n)` returns at
most `n` records, in non-decreasing XOR distance to the target, and the
result is a prefix of all the tree's records sorted by that distance —
so no record left out is strictly closer than a returned one. -/
theorem c2_closest_to_sorted_prefix (z : RoutingZone) (t n : Nat)
    (hwf : ZoneWf z) (ht : t < 2 ^ KEY_BITS) :
    (z.closestTo t n).length ≤ n ∧
    (z.closestTo t n).Sorted (distLe t) ∧
    (z.closestTo t n) <+: sortByDistance t z.allNodes := by
  rw [closestTo_eq t ht z hwf n]
  refine ⟨?_, ?_, ?_⟩
  · rw [List.length_take]
    omega
  · exact List.Pairwise.sublist (List.take_sublist n _)
      (List.sorted_insertionSort _ _)
  · exact ⟨_, List.take_append_drop n _⟩

theorem c2_closest_to_sorted_prefix_witness :
    ZoneWf exZone ∧ (0 : Nat) < 2 ^ KEY_BITS ∧
    ((exZone.closestTo 0 3).length ≤ 3 ∧
      (exZone.closestTo 0 3).Sorted (distLe 0) ∧
      (exZone.closestTo 0 3) <+: sortByDistance 0 exZone.allNodes) :=
  ⟨by decide, by decide,
    c2_closest_to_sorted_prefix exZone 0 3 (by decide) (by decide)⟩

theorem canSplit_not_full (P : TreeParams) (d : Nat) (bin : RoutingBin)
    (h : bin.nodes.length < bin.maxsize) :
    RoutingZone.canSplit P (.leaf d bin) = false := by
  have hr : ¬ bin.remaining = 0 := by
    unfold RoutingBin.remaining; omega
  simp [RoutingZone.canSplit, hr]

theorem addFuel_leaf_nosplit (P : TreeParams) (f d : Nat) (bin : RoutingBin)
    (n : Node) (h : bin.nodes.length < bin.maxsize) :
    RoutingZone.addFuel P (f + 1) (.leaf d bin) n = .leaf d (bin.push n) := by
  simp [RoutingZone.addFuel, canSplit_not_full P d bin h]

theorem push_append (bin : RoutingBin) (n : Node)
    (hroom : bin.nodes.length < bin.maxsize)
    (hnew : ∀ p ∈ bin.nodes, p.1 ≠ n.node_id) :
    bin.push n = { bin with nodes := bin.nodes ++ [(n.node_id, n)] } := by
  unfold RoutingBin.push
  have h1 : bin.remaining ≠ 0 := by unfold RoutingBin.remaining; omega
  rw [if_pos h1]
  unfold aset
  have h2 : bin.nodes.find? (fun p => decide (p.1 = n.node_id)) = none :=
    List.find?_eq_none.mpr (fun p hp => by simpa using hnew p hp)
  simp [h2]

theorem splitFold (P : TreeParams) (f' dd d m : Nat) :
    ∀ (xs : List Node) (n0 n1 r0 r1 : List (Nat × Node)),
      xs.Pairwise (fun a b => a.node_id ≠ b.node_id) →
      (∀ x ∈ xs, ∀ p ∈ n0, p.1 ≠ x.node_id) →
      (∀ x ∈ xs, ∀ p ∈ n1, p.1 ≠ x.node_id) →
      n0.length + (xs.filter
        (fun x => decide (bitNumber x.node_id d = 0))).length ≤ m →
      n1.length + (xs.filter
        (fun x => !decide (bitNumber x.node_id d = 0))).length ≤ m →
      xs.foldl
        (fun (cs : RoutingZone × RoutingZone) x =>
          if bitNumber x.node_id d = 0 then
            (RoutingZone.addFuel P (f' + 1) cs.1 x, cs.2)
          else (cs.1, RoutingZone.addFuel P (f' + 1) cs.2 x))
        (.leaf dd ⟨m, n0, r0⟩, .leaf dd ⟨m, n1, r1⟩)
      = (.leaf dd ⟨m, n0 ++ (xs.filter
            (fun x => decide (bitNumber x.node_id d = 0))).map
            (fun x => (x.node_id, x)), r0⟩,
         .leaf dd ⟨m, n1 ++ (xs.filter
            (fun x => !decide (bitNumber x.node_id d = 0))).map
            (fun x => (x.node_id, x)), r1⟩) := by
  intro xs
  induction xs with
  | nil => intro n0 n1 r0 r1 _ _ _ _ _; simp
  | cons x rest ih =>
    intro n0 n1 r0 r1 hpw hdis0 hdis1 hlen0 hlen1
    simp only [List.foldl_cons]
    by_cases hb : bitNumber x.node_id d = 0
    · have hfc : (x :: rest).filter
          (fun x => decide (bitNumber x.node_id d = 0))
          = x :: rest.filter (fun x => decide (bitNumber x.node_id d = 0)) :=
        List.filter_cons_of_pos (by simpa using hb)
      have hfc' : (x :: rest).filter
          (fun x => !decide (bitNumber x.node_id d = 0))
          = rest.filter (fun x => !decide (bitNumber x.node_id d = 0)) :=
        List.filter_cons_of_neg (by simpa using hb)
      have hroom : n0.length < m := by
        rw [hfc] at hlen0; simp at hlen0; omega
      rw [if_pos hb, addFuel_leaf_nosplit P f' dd ⟨m, n0, r0⟩ x hroom,
        push_append ⟨m, n0, r0⟩ x hroom (fun p hp => hdis0 x (by simp) p hp)]
      rw [ih (n0 ++ [(x.node_id, x)]) n1 r0 r1 hpw.of_cons
        (fun y hy p hp => by
          rcases List.mem_append.mp hp with h | h
          · exact hdis0 y (by simp [hy]) p h
          · rcases List.mem_singleton.mp h with rfl
            exact (List.pairwise_cons.mp hpw).1 y hy)
        (fun y hy p hp => hdis1 y (by simp [hy]) p hp)
        (by rw [hfc] at hlen0; simp at hlen0 ⊢; omega)
        (by rw [hfc'] at hlen1; simpa using hlen1)]
      rw [hfc, hfc']
      simp
    · have hfc : (x :: rest).filter
          (fun x => decide (bitNumber x.node_id d = 0))
          = rest.filter (fun x => decide (bitNumber x.node_id d = 0)) :=
        List.filter_cons_of_neg (by simpa using hb)
      have hfc' : (x :: rest).filter
          (fun x => !decide (bitNumber x.node_id d = 0))
          = x :: rest.filter (fun x => !decide (bitNumber x.node_id d = 0)) :=
        List.filter_cons_of_pos (by simpa using hb)
      have hroom : n1.length < m := by
        rw [hfc'] at hlen1; simp at hlen1; omega
      rw [if_neg hb, addFuel_leaf_nosplit P f' dd ⟨m, n1, r1⟩ x hroom,
        push_append ⟨m, n1, r1⟩ x hroom (fun p hp => hdis1 x (by simp) p hp)]
      rw [ih n0 (n1 ++ [(x.node_id, x)]) r0 r1 hpw.of_cons
        (fun y hy p hp => hdis0 y (by simp [hy]) p hp)
        (fun y hy p hp => by
          rcases List.mem_append.mp hp with h | h
          · exact hdis1 y (by simp [hy]) p h
          · rcases List.mem_singleton.mp h with rfl
            exact (List.pairwise_cons.mp hpw).1 y hy)
        (by rw [hfc] at hlen0; simpa using hlen0)
        (by rw [hfc'] at hlen1; simp at hlen1 ⊢; omega)]
      rw [hfc, hfc']
      simp

/-- C8.  Splitting a full leaf at depth `d` holding exactly `K`
records (with distinct ids, as every reachable bin has) produces an
internal zone with exactly two child leaves at depth `d + 1` whose
record counts sum to `K`; every record lands in the child indexed by
bit `d` of its node id, both children keep the bin capacity, and the
old leaf's bin — its replacement cache included — is discarded (the
children start with empty caches). -/
theorem c8_split_partitions (P : TreeParams) (fuel d : Nat)
    (bin : RoutingBin) (hfuel : 0 < fuel) (hwf : BinWf bin)
    (hK : bin.maxsize = K) (hfull : bin.nodes.length = K)
    (hcan : RoutingZone.canSplit P (.leaf d bin) = true) :
    ∃ b0 b1 : RoutingBin,
      RoutingZone.splitFuel P fuel (.leaf d bin)
        = .node d (.leaf (d + 1) b0) (.leaf (d + 1) b1) ∧
      b0.nodes.length + b1.nodes.length = K ∧
      (∀ p ∈ b0.nodes, bitNumber p.2.node_id d = 0) ∧
      (∀ p ∈ b1.nodes, bitNumber p.2.node_id d = 1) ∧
      b0.replacements = [] ∧ b1.replacements = [] ∧
      b0.maxsize = bin.maxsize ∧ b1.maxsize = bin.maxsize := by
  obtain ⟨f', rfl⟩ : ∃ f', fuel = f' + 1 := ⟨fuel - 1, by omega⟩
  have hxs : bin.get_all.length = K := by
    unfold RoutingBin.get_all; rw [List.length_map]; exact hfull
  have hpw := binWf_values_pairwise bin hwf
  have hflt : (bin.get_all.filter
        (fun x => decide (bitNumber x.node_id d = 0))).length +
      (bin.get_all.filter
        (fun x => !decide (bitNumber x.node_id d = 0))).length = K := by
    rw [← hxs]
    have := (List.filter_append_perm
      (fun x => decide (bitNumber x.node_id d = 0)) bin.get_all).length_eq
    simpa [List.length_append] using this
  have hb0 : (bin.get_all.filter
      (fun x => decide (bitNumber x.node_id d = 0))).length ≤ K := by
    rw [← hxs]; exact List.length_filter_le _ _
  have hb1 : (bin.get_all.filter
      (fun x => !decide (bitNumber x.node_id d = 0))).length ≤ K := by
    rw [← hxs]; exact List.length_filter_le _ _
  have hsplit := splitFold P f' (d + 1) d bin.maxsize bin.get_all [] [] [] []
    hpw (by simp) (by simp)
    (by simpa [hK] using hb0)
    (by simpa [hK] using hb1)
  refine ⟨⟨bin.maxsize, (bin.get_all.filter
      (fun x => decide (bitNumber x.node_id d = 0))).map
      (fun x => (x.node_id, x)), []⟩,
    ⟨bin.maxsize, (bin.get_all.filter
      (fun x => !decide (bitNumber x.node_id d = 0))).map
      (fun x => (x.node_id, x)), []⟩, ?_, ?_, ?_, ?_, rfl, rfl, rfl, rfl⟩
  · unfold RoutingZone.splitFuel RoutingZone.splitWith
    simp only [RoutingBin.mkEmpty]
    rw [hsplit]
    simp
  · simp only [List.length_map]
    exact hflt
  · intro p hp
    rcases List.mem_map.mp hp with ⟨x, hx, rfl⟩
    simpa using (List.mem_filter.mp hx).2
  · intro p hp
    rcases List.mem_map.mp hp with ⟨x, hx, rfl⟩
    have hne : ¬ bitNumber x.node_id d = 0 := by
      simpa using (List.mem_filter.mp hx).2
    have hle := bitNumber_le_one x.node_id d
    show bitNumber x.node_id d = 1
    omega

theorem c8_split_partitions_witness :
    BinWf exFullBin ∧ exFullBin.nodes.length = K ∧
    exFullBin.maxsize = K ∧
    RoutingZone.canSplit exParams (.leaf 0 exFullBin) = true ∧
    ∃ b0 b1 : RoutingBin,
      RoutingZone.splitFuel exParams 256 (.leaf 0 exFullBin)
        = .node 0 (.leaf 1 b0) (.leaf 1 b1) ∧
      b0.nodes.length + b1.nodes.length = K :=
  ⟨by decide, by decide, by decide, by decide,
    match c8_split_partitions exParams 256 0 exFullBin (by decide)
      (by decide) (by decide) (by decide) (by decide) with
    | ⟨b0, b1, h1, h2, _⟩ => ⟨b0, b1, h1, h2⟩⟩

theorem unpack_mkHeader (txid : List Nat) (h4 : txid.length = 4)
    (msgtype fragment lastfrag : Nat) (part : List Nat) :
    Payload.unpack (mkHeader txid msgtype fragment lastfrag part.length
        ++ part)
      = .ok { txid := txid, msgtype := msgtype, fragment := fragment,
              lastfrag := lastfrag, contentLength := part.length,
              content := part } := by
  obtain ⟨a, b, c, d, rfl⟩ : ∃ a b c d, txid = [a, b, c, d] := by
    match txid, h4 with
    | [a, b, c, d], _ => exact ⟨a, b, c, d, rfl⟩
  have hlen : ¬ (mkHeader [a, b, c, d] msgtype fragment lastfrag part.length
      ++ part).length < 9 := by
    simp [mkHeader, pad4]
  simp only [Payload.unpack, hlen, if_neg, if_false, mkHeader, pad4]
  simp [List.getD]
  have hdm : part.length / 256 * 256 + part.length % 256 = part.length := by
    omega
  rw [if_neg (by omega), hdm, List.take_length]

theorem packGo_spec (txid : List Nat) (h4 : txid.length = 4)
    (msgtype lastfrag : Nat) :
    ∀ (fuel : Nat) (content : List Nat) (fragment : Nat), 0 < fuel →
      content.length ≤ fuel * MAX_FRAGMENT →
      ∃ ps : List Payload,
        unpackAll (Payload.packGo txid msgtype lastfrag fuel fragment content)
          = some ps ∧
        (ps.map Payload.content).join = content ∧
        ps.map Payload.fragment = List.range' fragment ps.length ∧
        ∀ p ∈ ps, p.txid = txid ∧ p.msgtype = msgtype ∧
          p.lastfrag = lastfrag := by
  intro fuel
  induction fuel with
  | zero => intro _ _ h; omega
  | succ f ih =>
    intro content fragment _ hbound
    by_cases hbig : MAX_FRAGMENT < content.length
    · have htk : (content.take MAX_FRAGMENT).length = MAX_FRAGMENT := by
        rw [List.length_take]; omega
      have hrec : (content.drop MAX_FRAGMENT).length ≤ f * MAX_FRAGMENT := by
        rw [List.length_drop]
        simp only [MAX_FRAGMENT] at hbound ⊢
        omega
      have hfpos : 0 < f := by
        by_contra hf0
        have : f = 0 := by omega
        subst this
        simp at hrec
        omega
      obtain ⟨ps', h1, h2, h3, hfields⟩ :=
        ih (content.drop MAX_FRAGMENT) (fragment + 1) hfpos hrec
      have hu := unpack_mkHeader txid h4 msgtype fragment lastfrag
        (content.take MAX_FRAGMENT)
      rw [htk] at hu
      refine ⟨{ txid := txid, msgtype := msgtype, fragment := fragment,
                lastfrag := lastfrag, contentLength := MAX_FRAGMENT,
                content := content.take MAX_FRAGMENT } :: ps', ?_, ?_, ?_, ?_⟩
      · simp only [Payload.packGo, if_pos hbig, unpackAll, hu, h1]
        rfl
      · have h2f : (List.map Payload.content ps').flatten
            = List.drop MAX_FRAGMENT content := h2
        simp only [List.map_cons, List.flatten_cons]
        rw [h2f, List.take_append_drop]
      · simp only [List.map_cons, h3, List.length_cons]
        rw [List.range'_succ]
      · intro p hp
        rcases List.mem_cons.mp hp with h | h
        · subst h; exact ⟨rfl, rfl, rfl⟩
        · exact hfields p h
    · have hu := unpack_mkHeader txid h4 msgtype fragment lastfrag content
      refine ⟨[{ txid := txid, msgtype := msgtype, fragment := fragment,
                 lastfrag := lastfrag, contentLength := content.length,
                 content := content }], ?_, by simp, ?_, ?_⟩
      · simp only [Payload.packGo, if_neg hbig, unpackAll, hu]
        rfl
      · simp [List.range'_one]
      · intro p hp
        rcases List.mem_singleton.mp hp with rfl
        exact ⟨rfl, rfl, rfl⟩

set_option maxRecDepth 40000 in
/-- C5.  The claim says content of at most 1100 bytes produces exactly
one fragment with fragment index 0 and last fragment index 0.
Counterexample: content of exactly 1100 bytes produces one fragment
whose last-fragment-index byte is `floor(1100 / 1100) = 1`, not 0 (so a
receiver reassembling by that header would wait forever for a second
fragment). -/
theorem c5_counterexample :
    (Payload.pack [1, 2, 3, 4] 7 (List.replicate 1100 0)).length = 1 ∧
    (List.replicate 1100 (0 : Nat)).length ≤ 1100 ∧
    Payload.unpack ((Payload.pack [1, 2, 3, 4] 7
        (List.replicate 1100 0)).headD [])
      = .ok { txid := [1, 2, 3, 4], msgtype := 7, fragment := 0,
              lastfrag := 1, contentLength := 1100,
              content := List.replicate 1100 0 } ∧
    (1 : Nat) ≠ 0 := by
  decide

/-- C5 (amended).  For every 4-byte txid, msgtype, and content of length
at most 65535, every fragment produced by `Payload.pack` unpacks
successfully; concatenating the content fields in fragment-index order
(the emission order: the fragment indices are 0, 1, 2, ...) restores the
original content, and every fragment carries the original txid and
msgtype with last-fragment index `floor(length / 1100)`.  Content of
FEWER than 1100 bytes produces exactly one fragment with fragment index
0 and last fragment index 0 that unpacks back to the original triple. -/
theorem c5_amended_pack_roundtrip (txid : List Nat) (msgtype : Nat)
    (content : List Nat) (h4 : txid.length = 4)
    (hlen : content.length ≤ 65535) :
    ∃ ps : List Payload,
      unpackAll (Payload.pack txid msgtype content) = some ps ∧
      (ps.map Payload.content).join = content ∧
      ps.map Payload.fragment = List.range ps.length ∧
      (∀ p ∈ ps, p.txid = txid ∧ p.msgtype = msgtype ∧
        p.lastfrag = content.length / MAX_FRAGMENT) ∧
      (content.length < MAX_FRAGMENT →
        ps = [{ txid := txid, msgtype := msgtype, fragment := 0,
                lastfrag := 0, contentLength := content.length,
                content := content }]) := by
  obtain ⟨ps, hall, hjoin, hfrag, hfields⟩ :=
    packGo_spec txid h4 msgtype (content.length / MAX_FRAGMENT)
      (content.length + 1) content 0 (by omega)
      (by simp only [MAX_FRAGMENT]; omega)
  refine ⟨ps, hall, hjoin, by rw [hfrag, List.range_eq_range'], hfields, ?_⟩
  intro hsmall
  have hdiv : content.length / MAX_FRAGMENT = 0 := Nat.div_eq_of_lt hsmall
  have hp : Payload.pack txid msgtype content
      = [mkHeader txid msgtype 0 0 content.length ++ content] := by
    simp only [Payload.pack, hdiv, Payload.packGo]
    rw [if_neg (by omega)]
  have hall' : unpackAll (Payload.pack txid msgtype content) = some ps := hall
  rw [hp] at hall'
  have hu := unpack_mkHeader txid h4 msgtype 0 0 content
  simp only [unpackAll, hu] at hall'
  exact (Option.some_inj.mp hall').symm

theorem c5_amended_pack_roundtrip_witness :
    ([9, 9, 9, 9] : List Nat).length = 4 ∧
    ([1, 2, 3] : List Nat).length ≤ 65535 ∧
    ∃ ps : List Payload,
      unpackAll (Payload.pack [9, 9, 9, 9] 3 [1, 2, 3]) = some ps ∧
      (ps.map Payload.content).join = [1, 2, 3] :=
  ⟨by decide, by decide,
    match c5_amended_pack_roundtrip [9, 9, 9, 9] 3 [1, 2, 3] (by decide)
      (by decide) with
    | ⟨ps, hall, hjoin, _, _, _⟩ => ⟨ps, hall, hjoin⟩⟩

theorem c10_reset_preserves_hashtable (st : EngineState) (pk sk now : Nat)
    (k : List Nat) (v : Nat × Nat × List Nat)
    (h : alookup st.hashtable k = some v) :
    (Engine.reset now st pk sk).hashtable = st.hashtable ∧
    alookup (Engine.reset now st pk sk).hashtable k = some v :=
  ⟨rfl, h⟩

theorem c1_amended_fourth_timeout_witness :
    ((exNode 5).state = NodeState.discovered ∨
      (exNode 5).state = NodeState.verified) ∧
    (exNode 5).failures = 0 ∧
    (Node.timeout 4 (Node.timeout 3 (Node.timeout 2
      (Node.timeout 1 (exNode 5))))).state = NodeState.failed :=
  ⟨Or.inl (by decide), by decide,
    (c1_amended_fourth_timeout (exNode 5) 1 2 3 4 (Or.inl (by decide))
      (by decide)).2.2.2.2.2.2.1⟩

theorem c3_amended_timeout_not_noop_witness :
    (exTxExhausted.state = FNState.exhausted ∨
      exTxExhausted.state = FNState.timedout) ∧
    (FNTx.timeoutStep 2000 exTreeSmall exTxExhausted).1.state
      = FNState.timedout :=
  ⟨Or.inl (by decide),
    (c3_amended_timeout_not_noop exTxExhausted exTreeSmall 2000
      (Or.inl (by decide))).1⟩

theorem c7_stor_stores_whole_content_witness :
    alookup (dhtHandlePeer (fun l => l) 1000 exEngine (exNode 77)
        [0, 0, 0, 1] 9 ([102, 111, 111] ++ [98, 97, 114])).1.hashtable
        ([102, 111, 111] ++ [98, 97, 114])
      = some ((exNode 77).node_id, 1000, [102, 111, 111] ++ [98, 97, 114]) :=
  (c7_stor_stores_whole_content (fun l => l) (fun _ _ hab => hab) exEngine
    (exNode 77) [0, 0, 0, 1] 1000).2.1

theorem c9_amended_duplicate_response_witness :
    alookup exTx.outstanding (exNode 77).node_id = none ∧
    (FNTx.handleResponse exParams 1000 exTreeSmall exTx (exNode 77)
        [0, 0, 0, 1] 4 exContent42).tx.state = exTx.state :=
  ⟨by decide,
    (c9_amended_duplicate_response exParams 1000 exTreeSmall exTx (exNode 77)
      [0, 0, 0, 1] 4 exContent42 (by decide)).1⟩

/-- C6 (amended).  A datagram shorter than 36 bytes is dropped without
side effect (under 33 bytes the packet header cannot be unpacked; at
33–35 bytes the remaining payload is too short for the fragment header,
or, when marked encrypted, too short for the authenticated box, whose
ciphertext carries a 24-byte nonce and a 16-byte tag — `hbox` states
that minimum, modelled from the spec of the NaCl box primitive), and an
encrypted packet failing authentication is dropped without side effect.
(The claim's third case, a declared content length exceeding the
remaining bytes, is NOT dropped — see the counterexample.) -/
theorem c6_amended_drop_no_side_effect (P : TreeParams)
    (decrypt : Nat → List Nat → Option (List Nat))
    (idForKey : List Nat → List Nat) (now : Nat) (st : EngineState)
    (srcAddr : List Nat) (srcPort : Nat) (data : List Nat)
    (hbox : ∀ nid c, c.length < 40 → decrypt nid c = none)
    (hcase : data.length < 36 ∨
      (data.getD 32 0 = 2 ∧
        decrypt (bytesToNat (data.take 32)) (data.drop 33) = none)) :
    Engine.recvExternal P decrypt idForKey now st srcAddr srcPort data
      = (st, []) := by
  simp only [Engine.recvExternal]
  by_cases h33 : data.length < 33
  · rw [if_pos h33]
  · rw [if_neg h33]
    rcases hcase with hshort | ⟨hmode, hfail⟩
    · by_cases hm : data.getD 32 0 = 2
      · have hlen : (data.drop 33).length < 40 := by
          simp only [List.length_drop]; omega
        rw [if_pos hm, hbox _ _ hlen]
      · have hlen : (data.drop 33).length < 9 := by
          simp only [List.length_drop]; omega
        have hu : Payload.unpack (data.drop 33) = .error .structError := by
          unfold Payload.unpack; rw [if_pos hlen]
        rw [if_neg hm]
        simp only [hu]
    · rw [if_pos hmode, hfail]

theorem c6_amended_drop_no_side_effect_witness :
    (([1, 2, 3] : List Nat).length < 36 ∨
      (([1, 2, 3] : List Nat).getD 32 0 = 2 ∧
        (fun (_ : Nat) (_ : List Nat) => (none : Option (List Nat)))
          (bytesToNat (([1, 2, 3] : List Nat).take 32))
          (([1, 2, 3] : List Nat).drop 33) = none)) ∧
    Engine.recvExternal exParams (fun _ _ => none) (fun l => l) 1000
      exEngine [50] 4242 [1, 2, 3] = (exEngine, []) :=
  ⟨Or.inl (by decide),
    c6_amended_drop_no_side_effect exParams (fun _ _ => none) (fun l => l)
      1000 exEngine [50] 4242 [1, 2, 3] (fun _ _ _ => rfl)
      (Or.inl (by decide))⟩

/-- C6.  The claim also says a datagram whose declared fragment content
length exceeds the remaining payload bytes is dropped without side
effect.  Counterexample: a 42-byte plaintext datagram declaring 5
content bytes with 0 remaining is processed — the Python slice
`payload[9:content_length + 9]` silently truncates (`# cater for
padding`), the unfragmented message is delivered as empty content, and
the sender is verified and added to the routing tree. -/
theorem c6_counterexample :
    exBadDatagram.length = 42 ∧
    ¬ exBadDatagram.length < 36 ∧
    (Payload.unpack (exBadDatagram.drop 33)
      = .ok { txid := [0, 0, 0, 9], msgtype := 7, fragment := 0,
              lastfrag := 0, contentLength := 5, content := [] }) ∧
    (exBadDatagram.drop 33).length - 9 < 5 ∧
    (Engine.recvExternal exParams (fun _ _ => none) (fun l => l) 1000
      exEngine [50] 4242 exBadDatagram).1.nodetree ≠ exEngine.nodetree := by
  decide

theorem c10_reset_preserves_hashtable_witness :
    alookup ({ exEngine with
        hashtable := [([1, 2], (9, 9, [3]))] } : EngineState).hashtable [1, 2]
      = some (9, 9, [3]) ∧
    alookup (Engine.reset 5 { exEngine with
        hashtable := [([1, 2], (9, 9, [3]))] } 123 456).hashtable [1, 2]
      = some (9, 9, [3]) :=
  ⟨by decide,
    (c10_reset_preserves_hashtable
      { exEngine with hashtable := [([1, 2], (9, 9, [3]))] }
      123 456 5 [1, 2] (9, 9, [3]) (by decide)).2⟩

end Peerz
